import Mathlib

/-!
Verification of the ThreatMapper core against its specification.

The development shallowly embeds two source files:

* `deepfence_ingester/ingesters/secrets.go` — the batch ingestion pipeline
  (`CommitFuncSecrets`, `CommitFuncSecretScanStatus`, `secretsToMaps`,
  `statusesToMaps`) plus the effect of the two Cypher statements they run,
  modelled on an explicit property-graph state.
* `deepfence_server/reporters/lookup/lookup.go` — the lookup/report layer
  (`GetHostsReport`, `GetContainersReport`, `GetContainerImagesReport`,
  `GetKubernetesClustersReport`, `GetRegistryAccountReport`,
  `getGenericDirectNodeReport`), modelled over oracles for the store so that
  query traffic and failure handling are explicit.

Helper code that the two files call but that lives outside the sources at
hand (`utils.ToMap`, `utils.InSlice`, `reporters.FieldFilterCypher`, the
`model` entity structs) is modelled from the specification; each such
definition carries a doc comment saying so.
-/

namespace ThreatMapper

/-! ## Property values and property maps

Neo4j property values as they occur in this code: strings, integers,
floats (`Severity.score`), nested maps (the `Match`/`Rule`/`Severity`
groups produced by `utils.ToMap` before `secretsToMaps` deletes them), and
null. Floats carry no arithmetic here — they are stored and compared only —
so `ℚ` represents them exactly.  Every nested map in this program is flat
(the wire-record groups contain only scalars, spec §6), so values are
stratified into scalar `Prim`s and a `Value` layer that can nest one level
of map. -/
inductive Prim where
  | pNull : Prim
  | pBool : Bool → Prim
  | pStr : String → Prim
  | pInt : Int → Prim
  | pFloat : ℚ → Prim
deriving DecidableEq, Repr

inductive Value where
  | vNull : Value
  | vBool : Bool → Value
  | vStr : String → Value
  | vInt : Int → Value
  | vFloat : ℚ → Value
  | vMap : List (String × Prim) → Value
deriving DecidableEq, Repr

/-- Embed a scalar into the value layer. -/
def Prim.toValue : Prim → Value
  | .pNull => .vNull
  | .pBool b => .vBool b
  | .pStr s => .vStr s
  | .pInt n => .vInt n
  | .pFloat q => .vFloat q

/-- A property bag, as a key-value association list with first-match lookup.
Go maps are unordered with unique keys; every map built below has pairwise
distinct keys, and claims only ever inspect the maps through `pmLookup`. -/
abbrev PropMap := List (String × Value)

/-- Lookup of a key in a property map (Go `m[k]`, first match). -/
def pmLookup : PropMap → String → Option Value
  | [], _ => none
  | (k', v) :: rest, k => if k' = k then some v else pmLookup rest k

/-- Lookup with a default value. -/
def pmLookupD (m : PropMap) (k : String) (d : Value) : Value :=
  (pmLookup m k).getD d

/-- Go map assignment `m[k] = v`: replace the binding if the key is present,
otherwise append it. -/
def pmInsert : PropMap → String → Value → PropMap
  | [], k, v => [(k, v)]
  | (k', v') :: rest, k, v =>
      if k' = k then (k, v) :: rest else (k', v') :: pmInsert rest k v

/-- Go `delete(m, k)`. -/
def pmDelete : PropMap → String → PropMap
  | [], _ => []
  | (k', v) :: rest, k =>
      if k' = k then pmDelete rest k else (k', v) :: pmDelete rest k

/-- The Go pattern `for k, v := range add { m[k] = v }`, and also Cypher
`SET n += map`: add every binding of `add` to `m`, overwriting on
collision. -/
def pmAddAll (m add : PropMap) : PropMap :=
  add.foldl (fun acc kv => pmInsert acc kv.1 kv.2) m

/-- The keys of a property map. -/
def pmKeys (m : PropMap) : List String := m.map Prod.fst

/-- Whether `props` satisfies the equality pattern `key` (the semantics of a
Cypher inline pattern `\x7bk1: v1, k2: v2\x7d`: every listed property is
present with the listed value). -/
def pmMatches (props key : PropMap) : Prop :=
  ∀ kv ∈ key, pmLookup props kv.1 = some kv.2

instance (props key : PropMap) : Decidable (pmMatches props key) :=
  List.decidableBAll _ key

/-! ## The property-graph store

A minimal explicit state for the slice of Neo4j this code touches: labelled
nodes with property bags and typed directed edges.  `MERGE` is modelled as
find-first-else-create; in every state this development runs on, at most one
node matches a merge pattern, so first-match agrees with Cypher. -/

/-- A graph node: internal identity, label, property bag. -/
structure GNode where
  nid : Nat
  label : String
  props : PropMap
deriving DecidableEq, Repr

/-- A typed directed edge between two node identities. -/
structure GEdge where
  src : Nat
  typ : String
  dst : Nat
deriving DecidableEq, Repr

/-- The graph store state.  `freshId` supplies identities for created
nodes. -/
structure Graph where
  nodes : List GNode
  edges : List GEdge
  freshId : Nat
deriving DecidableEq, Repr

/-- The empty store. -/
def emptyGraph : Graph := ⟨[], [], 0⟩

/-- First node carrying `label` whose properties satisfy `key`
(Cypher `MATCH (n:label \x7b...key...\x7d)` restricted to the states this
development uses, where the match is unique or absent). -/
def findNode (g : Graph) (label : String) (key : PropMap) : Option GNode :=
  g.nodes.find? (fun n => decide (n.label = label ∧ pmMatches n.props key))

/-- Cypher `MERGE (n:label \x7b...key...\x7d)`: bind the matching node if one
exists, otherwise create a node holding exactly the pattern's properties.
Returns the updated graph and the bound node's identity. -/
def mergeNode (g : Graph) (label : String) (key : PropMap) : Graph × Nat :=
  match findNode g label key with
  | some n => (g, n.nid)
  | none =>
      ({ nodes := g.nodes ++ [⟨g.freshId, label, key⟩]
         edges := g.edges
         freshId := g.freshId + 1 }, g.freshId)

/-- Cypher `SET n += m` on the node bound to identity `nid`. -/
def setPlus (g : Graph) (nid : Nat) (m : PropMap) : Graph :=
  { g with nodes := g.nodes.map (fun n =>
      if n.nid = nid then { n with props := pmAddAll n.props m } else n) }

/-- Cypher `MERGE (a)-[:typ]->(b)`: create the edge unless it already
exists. -/
def mergeEdge (g : Graph) (src : Nat) (typ : String) (dst : Nat) : Graph :=
  if (⟨src, typ, dst⟩ : GEdge) ∈ g.edges then g
  else { g with edges := g.edges ++ [⟨src, typ, dst⟩] }

/-- All edges of a given type. -/
def edgesOfType (g : Graph) (typ : String) : List GEdge :=
  g.edges.filter (fun e => e.typ = typ)

/-- Number of nodes carrying a given label. -/
def countLabel (g : Graph) (label : String) : Nat :=
  (g.nodes.filter (fun n => n.label = label)).length

/-- Decidable equality of call results, for evaluating the embedded
functions at concrete inputs. -/
instance {ε α : Type} [DecidableEq ε] [DecidableEq α] : DecidableEq (Except ε α)
  | .ok x, .ok y =>
      if h : x = y then isTrue (by rw [h])
      else isFalse (fun he => h (Except.ok.inj he))
  | .error x, .error y =>
      if h : x = y then isTrue (by rw [h])
      else isFalse (fun he => h (Except.error.inj he))
  | .ok _, .error _ => isFalse (fun he => Except.noConfusion he)
  | .error _, .ok _ => isFalse (fun he => Except.noConfusion he)

/-! ## Secrets ingester: wire records
From `src/deepfence_ingester/ingesters/secrets.go`.  Field names follow the
Go structs; the JSON tags on those structs give the map keys used by
`utils.ToMap` below.  `time.Time` values are opaque payload here and are
modelled as strings. -/

/-- The nested `Match` group of a `Secret` wire record. -/
structure SecretMatch where
  StartingIndex : Int
  RelativeStartingIndex : Int
  RelativeEndingIndex : Int
  FullFilename : String
  MatchedContent : String
deriving DecidableEq, Repr

/-- The nested `Rule` group of a `Secret` wire record. -/
structure SecretRule where
  ID : Int
  Name : String
  Part : String
  SignatureToMatch : String
deriving DecidableEq, Repr

/-- The nested `Severity` group of a `Secret` wire record. -/
structure SecretSeverity where
  Level : String
  Score : ℚ
deriving DecidableEq, Repr

/-- A decoded `Secret` finding record (`type Secret` in secrets.go). -/
structure Secret where
  Timestamp : String
  ImageLayerID : String
  Match : SecretMatch
  Rule : SecretRule
  Severity : SecretSeverity
  ContainerName : String
  HostName : String
  KubernetesClusterName : String
  Masked : String
  NodeID : String
  NodeName : String
  NodeType : String
  ScanID : String
deriving DecidableEq, Repr

/-- A decoded `SecretScanStatus` record (`type SecretScanStatus` in
secrets.go). -/
structure SecretScanStatus where
  Timestamp : String
  ContainerName : String
  HostName : String
  KubernetesClusterName : String
  Masked : String
  NodeID : String
  NodeName : String
  NodeType : String
  ScanID : String
  ScanStatus : String
deriving DecidableEq, Repr

/-! ## `utils.ToMap`, modelled -/

/-- Modelled from the spec: `utils.ToMap` (deepfence_utils, not under
`src/`) converts a struct into a map keyed by its JSON tags (§6 lists the
wire-record field names; the tags themselves are visible on the structs in
`src/deepfence_ingester/ingesters/secrets.go`).  This is the `Match`
group. -/
def toMapMatch (m : SecretMatch) : List (String × Prim) :=
  [ ("starting_index", .pInt m.StartingIndex)
  , ("relative_starting_index", .pInt m.RelativeStartingIndex)
  , ("relative_ending_index", .pInt m.RelativeEndingIndex)
  , ("full_filename", .pStr m.FullFilename)
  , ("matched_content", .pStr m.MatchedContent) ]

/-- Modelled from the spec: `utils.ToMap` on the `Rule` group. -/
def toMapRule (r : SecretRule) : List (String × Prim) :=
  [ ("id", .pInt r.ID)
  , ("name", .pStr r.Name)
  , ("part", .pStr r.Part)
  , ("signature_to_match", .pStr r.SignatureToMatch) ]

/-- Modelled from the spec: `utils.ToMap` on the `Severity` group. -/
def toMapSeverity (s : SecretSeverity) : List (String × Prim) :=
  [ ("level", .pStr s.Level)
  , ("score", .pFloat s.Score) ]

/-- Promote a flat scalar map to the value layer (spreading a nested group
into a top-level map). -/
def liftPM (m : List (String × Prim)) : PropMap :=
  m.map (fun kv => (kv.1, kv.2.toValue))

/-- Modelled from the spec: `utils.ToMap` on a whole `Secret`; nested
groups become nested maps under their Go field names (`Match`, `Rule`,
`Severity`), flat fields use their JSON tags. -/
def toMapSecret (s : Secret) : PropMap :=
  [ ("@timestamp", .vStr s.Timestamp)
  , ("ImageLayerId", .vStr s.ImageLayerID)
  , ("Match", .vMap (toMapMatch s.Match))
  , ("Rule", .vMap (toMapRule s.Rule))
  , ("Severity", .vMap (toMapSeverity s.Severity))
  , ("container_name", .vStr s.ContainerName)
  , ("host_name", .vStr s.HostName)
  , ("kubernetes_cluster_name", .vStr s.KubernetesClusterName)
  , ("masked", .vStr s.Masked)
  , ("node_id", .vStr s.NodeID)
  , ("node_name", .vStr s.NodeName)
  , ("node_type", .vStr s.NodeType)
  , ("scan_id", .vStr s.ScanID) ]

/-- Modelled from the spec: `utils.ToMap` on a `SecretScanStatus` (§6 wire
record). -/
def toMapStatus (s : SecretScanStatus) : PropMap :=
  [ ("@timestamp", .vStr s.Timestamp)
  , ("container_name", .vStr s.ContainerName)
  , ("host_name", .vStr s.HostName)
  , ("kubernetes_cluster_name", .vStr s.KubernetesClusterName)
  , ("masked", .vStr s.Masked)
  , ("node_id", .vStr s.NodeID)
  , ("node_name", .vStr s.NodeName)
  , ("node_type", .vStr s.NodeType)
  , ("scan_id", .vStr s.ScanID)
  , ("scan_status", .vStr s.ScanStatus) ]

/-! ## `secretsToMaps` and `statusesToMaps` (secrets.go L114-143) -/

/-- One element of the `$batch` parameter built by `secretsToMaps`: the Go
code produces `map[string]map[string]interface\x7b\x7d` with the two keys
`"Rule"` and `"Secret"`. -/
structure SecretRow where
  rule : PropMap
  secret : PropMap
deriving DecidableEq, Repr

/-- The per-record body of the `secretsToMaps` loop (secrets.go L124-140):
flatten the record, delete the nested `Severity`/`Rule`/`Match` keys,
spread the `Severity` and `Match` groups into the top level, and derive
the composite `rule_id` via `fmt.Sprintf("%v:%v", i.Rule.ID,
i.HostName)`. -/
def secretToRow (i : Secret) : SecretRow :=
  let secret0 := toMapSecret i
  let secret1 := pmDelete secret0 "Severity"
  let secret2 := pmDelete secret1 "Rule"
  let secret3 := pmDelete secret2 "Match"
  let secret4 := pmAddAll secret3 (liftPM (toMapSeverity i.Severity))
  let secret5 := pmAddAll secret4 (liftPM (toMapMatch i.Match))
  let secret6 := pmInsert secret5 "rule_id"
      (.vStr (toString i.Rule.ID ++ ":" ++ i.HostName))
  { rule := liftPM (toMapRule i.Rule), secret := secret6 }

/-- `secretsToMaps` (secrets.go L122-143). -/
def secretsToMaps (data : List Secret) : List SecretRow :=
  data.map secretToRow

/-- `statusesToMaps` (secrets.go L114-120). -/
def statusesToMaps (data : List SecretScanStatus) : List PropMap :=
  data.map toMapStatus

/-! ## The two Cypher statements, clause by clause

`CommitFuncSecrets` runs (secrets.go L74):

  UNWIND $batch as row
  WITH row.Rule as rule, row.Secret as secret
  MERGE (r:Rule\x7bnode_id:rule.id\x7d) SET r+=rule
  WITH secret as row, r
  MERGE (n:Secret\x7bnode_id:row.rule_id\x7d)
  MERGE (n)-[:IS]->(r)
  MERGE (m:SecretScan\x7bnode_id: row.scan_id, host_name: row.host_name,
         time_stamp: timestamp()\x7d)
  WITH n, m, row
  MATCH (l:Node\x7bnode_id: row.host_name\x7d)
  MERGE (m)-[:DETECTED]->(n)
  MERGE (m)-[:SCANNED]->(l)
  SET n+= row

`timestamp()` is the statement clock: constant for every row of one call,
and passed here as the explicit parameter `t`.  The plain (non-OPTIONAL)
`MATCH` drops the row when no `Node` with the row's `host_name` exists, so
the clauses after it do not execute for that row. -/

/-- Effect of the secrets upsert statement for a single `UNWIND` row.
(`gr`, `gn`, `gm` are the graph/identity pairs bound by the three node
merges, i.e. the Cypher variables `r`, `n`, `m`.) -/
def secretsQueryRow (t : Nat) (g : Graph) (row : SecretRow) : Graph :=
  let gr := mergeNode g "Rule" [("node_id", pmLookupD row.rule "id" .vNull)]
  let g2 := setPlus gr.1 gr.2 row.rule
  let gn := mergeNode g2 "Secret"
      [("node_id", pmLookupD row.secret "rule_id" .vNull)]
  let g4 := mergeEdge gn.1 gn.2 "IS" gr.2
  let gm := mergeNode g4 "SecretScan"
      [ ("node_id", pmLookupD row.secret "scan_id" .vNull)
      , ("host_name", pmLookupD row.secret "host_name" .vNull)
      , ("time_stamp", .vInt t) ]
  match findNode gm.1 "Node" [("node_id", pmLookupD row.secret "host_name" .vNull)] with
  | none => gm.1
  | some l =>
      setPlus (mergeEdge (mergeEdge gm.1 gm.2 "DETECTED" gn.2) gm.2 "SCANNED" l.nid)
        gn.2 row.secret

/-- Effect of the whole secrets upsert statement: rows in batch order. -/
def runSecretsQuery (t : Nat) (g : Graph) (rows : List SecretRow) : Graph :=
  rows.foldl (secretsQueryRow t) g

/-- Effect of the scan-status statement (secrets.go L106) for one row:
`MERGE (n:SecretScan\x7bnode_id: row.scan_id\x7d) SET n.status =
row.scan_status`. -/
def statusQueryRow (g : Graph) (row : PropMap) : Graph :=
  let gn := mergeNode g "SecretScan" [("node_id", pmLookupD row "scan_id" .vNull)]
  setPlus gn.1 gn.2 [("status", pmLookupD row "scan_status" .vNull)]

/-- Effect of the whole scan-status statement. -/
def runStatusQuery (g : Graph) (rows : List PropMap) : Graph :=
  rows.foldl statusQueryRow g

/-! ## The commit functions' control flow

The store interactions that can fail are abstracted by boolean switches:
resolving the namespace's Neo4j client (`directory.Neo4jClient`), beginning
the transaction, running the statement, committing.  Note that in both Go
functions the result of `NewSession` is never error-checked against a fresh
error (the `if err != nil` after it re-examines the stale client error), so
session creation has no failure switch. -/

/-- Failure switches for one write call. -/
structure WriteEnv where
  clientOk : Bool
  beginTxOk : Bool
  runOk : Bool
  commitOk : Bool
deriving DecidableEq, Repr

/-- The environment in which every store interaction succeeds. -/
def okWriteEnv : WriteEnv := ⟨true, true, true, true⟩

/-- Store operations a write call can perform, for claims about how much
store work happens.  Resolving the client handle is not a store operation:
it only looks up the tenant's driver. -/
inductive WriteOp where
  | newSession : WriteOp
  | beginTx : WriteOp
  | runStatement : WriteOp
  | commitTx : WriteOp
deriving DecidableEq, Repr

/-- `CommitFuncSecrets` (secrets.go L55-80): resolve the client, open a
session and a transaction, run the upsert statement over the flattened
batch, commit. -/
def CommitFuncSecrets (env : WriteEnv) (t : Nat) (g : Graph)
    (data : List Secret) : Except String Graph :=
  if !env.clientOk then .error "could not connect to neo4j" else
  if !env.beginTxOk then .error "begin transaction failed" else
  if !env.runOk then .error "run failed" else
  if !env.commitOk then .error "commit failed" else
  .ok (runSecretsQuery t g (secretsToMaps data))

/-- `CommitFuncSecretScanStatus` (secrets.go L82-112), with its store-op
trace.  Faithful to the source order: the client is resolved first, but the
empty-batch check (L86) returns `nil` before the client error is examined
(L90). -/
def CommitFuncSecretScanStatus (env : WriteEnv) (g : Graph)
    (data : List SecretScanStatus) : Except String Graph × List WriteOp :=
  if data.length = 0 then (.ok g, []) else
  if !env.clientOk then (.error "could not connect to neo4j", []) else
  if !env.beginTxOk then
    (.error "begin transaction failed", [.newSession, .beginTx]) else
  if !env.runOk then
    (.error "run failed", [.newSession, .beginTx, .runStatement]) else
  if !env.commitOk then
    (.error "commit failed", [.newSession, .beginTx, .runStatement, .commitTx]) else
  (.ok (runStatusQuery g (statusesToMaps data)),
    [.newSession, .beginTx, .runStatement, .commitTx])

/-! ## Lookup layer: filter, query composition
From `src/deepfence_server/reporters/lookup/lookup.go`. -/

/-- Modelled from the spec: `model.FetchWindow` (deepfence_server/model,
not under `src/`), §6: `window: \x7b offset: int, size: int \x7d`.  The
lookup code at hand never reads it. -/
structure FetchWindow where
  Offset : Int
  Size : Int
deriving DecidableEq, Repr

/-- `LookupFilter` (lookup.go L18-22). -/
structure LookupFilter where
  InFieldFilter : List String
  NodeIds : List String
  Window : FetchWindow
deriving DecidableEq, Repr

/-- Modelled from the spec: `utils.InSlice` (golang sdk utils, external):
membership of a string in a slice. -/
def InSlice (s : String) (l : List String) : Bool :=
  l.contains s

/-- Comma-separated join of a list of strings (`strings.Join(tmp, ",")`). -/
def joinComma : List String → String
  | [] => ""
  | [x] => x
  | x :: y :: rest => x ++ ("," ++ joinComma (y :: rest))

/-- Modelled from the spec: `reporters.FieldFilterCypher`
(deepfence_server/reporters, not under `src/`).  Per §4.1 the composed
query "projects either the full property bag or exactly the requested
fields, in requested order", and per §9 the existing system builds the
projection clause directly from the caller-supplied field names
(`name.field` terms joined by commas); an empty field list projects the
whole node. -/
def FieldFilterCypher (name : String) (fields : List String) : String :=
  if fields.isEmpty then name
  else joinComma (fields.map (fun f => name ++ "." ++ f))

/-- The query text built by `getGenericDirectNodeReport`
(lookup.go L226-237): two shapes depending on whether `NodeIds` is empty,
both splicing `FieldFilterCypher("n", filter.InFieldFilter)` into the
`RETURN` clause. -/
def genericQueryString (label : String) (filter : LookupFilter) : String :=
  if filter.NodeIds.isEmpty then
    "\n\t\t\t\tMATCH (n:" ++ label
      ++ ")\n\t\t\t\tOPTIONAL MATCH (n) -[:IS]-> (e)\n\t\t\t\tRETURN "
      ++ FieldFilterCypher "n" filter.InFieldFilter ++ ", e"
  else
    "\n\t\t\t\tMATCH (n:" ++ label
      ++ ")\n\t\t\t\tWHERE n.node_id IN $ids\n\t\t\t\tOPTIONAL MATCH (n) -[:IS]-> (e)\n\t\t\t\tRETURN "
      ++ FieldFilterCypher "n" filter.InFieldFilter ++ ", e"

/-- A needle occurs verbatim inside a haystack string. -/
def Spliced (needle hay : String) : Prop :=
  ∃ u v, hay.data = u ++ needle.data ++ v

/-! ## Lookup layer: record mapping (lookup.go L252-283) -/

/-- One raw record of the generic lookup query: the primary node `n`
(`none` models both a missing entry and a non-node value — the two cases
the Go code skips identically with a warning), the positional values for a
field projection, and the optional classification node `e` joined via
`IS`. -/
structure Rec where
  nVal : Option PropMap
  values : List Value
  eVal : Option PropMap
deriving DecidableEq, Repr

/-- The classification-overlay merge (lookup.go L272-279): if an `IS` node
was joined, copy each of its properties except `node_id` into the map,
overwriting on collision. -/
def mergeIsProps (node_map : PropMap) (e : Option PropMap) : PropMap :=
  match e with
  | none => node_map
  | some props =>
      props.foldl
        (fun acc kv => if kv.1 ≠ "node_id" then pmInsert acc kv.1 kv.2 else acc)
        node_map

/-- The positional mapping of a field projection (lookup.go L267-270):
`node_map[filter.InFieldFilter[i]] = rec.Values[i]`. -/
def zipFieldVals (fields : List String) (vals : List Value) : PropMap :=
  (List.range fields.length).foldl
    (fun acc i => pmInsert acc (fields.getD i "") (vals.getD i .vNull)) []

/-- The primary node's property map before the classification overlay is
applied: the full property bag when no field projection was requested,
otherwise the positionally-zipped projection (lookup.go L253-271). -/
def primaryMap (filter : LookupFilter) (rec : Rec) : PropMap :=
  if filter.InFieldFilter.isEmpty then rec.nVal.getD []
  else zipFieldVals filter.InFieldFilter rec.values

/-- Per-record mapping of `getGenericDirectNodeReport` (lookup.go
L252-283), producing the merged property map handed to `utils.FromMap`
(`none` = record skipped). -/
def mapRecord (filter : LookupFilter) (rec : Rec) : Option PropMap :=
  if filter.InFieldFilter.isEmpty then
    match rec.nVal with
    | none => none
    | some props => some (mergeIsProps props rec.eVal)
  else
    some (mergeIsProps (zipFieldVals filter.InFieldFilter rec.values) rec.eVal)

/-! ## Lookup layer: the generic node report -/

/-- The spec's §7 error taxonomy as far as this code can surface it.
`validationErr` is the `ValidationError` of §4.1/§7; the embedded code has
no path producing it, which is what claim C3 is about. -/
inductive LookupErr where
  | connectionErr : LookupErr
  | queryErr : LookupErr
  | validationErr : LookupErr
deriving DecidableEq, Repr

/-- Store operations of a read call, in order. -/
inductive ReadOp where
  | openSession : ReadOp
  | beginTx : ReadOp
  | runQuery : String → ReadOp
deriving DecidableEq, Repr

/-- Failure switches and the store's answer for one read call. -/
structure ReadEnv where
  clientOk : Bool
  sessionOk : Bool
  txOk : Bool
  runRes : Except Unit (List Rec)
deriving Repr

/-- `getGenericDirectNodeReport` (lookup.go L203-286) down to the merged
property maps (the final `utils.FromMap` decode into the typed struct is
outside the sources at hand; the typed report functions below therefore
take the decoded list as an input).  Returns the result and the trace of
store operations performed. -/
def getGenericDirectNodeReport (env : ReadEnv) (label : String)
    (filter : LookupFilter) : Except LookupErr (List PropMap) × List ReadOp :=
  if !env.clientOk then (.error .connectionErr, []) else
  if !env.sessionOk then (.error .connectionErr, [.openSession]) else
  if !env.txOk then (.error .connectionErr, [.openSession, .beginTx]) else
  match env.runRes with
  | .error _ =>
      (.error .queryErr,
        [.openSession, .beginTx, .runQuery (genericQueryString label filter)])
  | .ok recs =>
      (.ok (recs.filterMap (mapRecord filter)),
        [.openSession, .beginTx, .runQuery (genericQueryString label filter)])

/-! ## Lookup layer: typed entities and relation enrichment

The `model` entity structs live in `deepfence_server/model`, outside the
sources at hand; their fields are modelled from their uses in lookup.go
(`.ID`, `.Processes`, `.Containers`, `.ContainerImages`, `.Pods`,
`.ContainerImage`, `.Hosts`) and the spec's §4.3 enrichment table.  Related
entities attached by enrichment are kept as raw property maps — nothing in
this code inspects them further. -/

/-- Modelled from the spec: `model.Host` as used by `GetHostsReport`. -/
structure Host where
  ID : String
  Processes : List PropMap
  Containers : List PropMap
  ContainerImages : List PropMap
  Pods : List PropMap
deriving DecidableEq, Repr

/-- Modelled from the spec: `model.Container` as used by
`GetContainersReport` (`ContainerImage` is a single optional match,
§4.3). -/
structure Container where
  ID : String
  Processes : List PropMap
  ContainerImage : Option PropMap
deriving DecidableEq, Repr

/-- Modelled from the spec: `model.ContainerImage` as used by
`GetContainerImagesReport`. -/
structure ContainerImage where
  ID : String
  Containers : List PropMap
deriving DecidableEq, Repr

/-- Modelled from the spec: `model.KubernetesCluster` as used by
`GetKubernetesClustersReport`. -/
structure KubernetesCluster where
  ID : String
  Hosts : List PropMap
deriving DecidableEq, Repr

/-- Modelled from the spec: `model.RegistryAccount` as used by
`GetRegistryAccountReport`. -/
structure RegistryAccount where
  ID : String
  ContainerImages : List PropMap
deriving DecidableEq, Repr

/-- The fixed one-hop relation templates of lookup.go L339-414, as tags for
the query log. -/
inductive RelTag where
  | hostProcesses : RelTag
  | hostContainers : RelTag
  | hostContainerImages : RelTag
  | hostPods : RelTag
  | containerProcesses : RelTag
  | containerContainerImages : RelTag
  | imageContainers : RelTag
  | clusterHosts : RelTag
  | registryContainerImages : RelTag
deriving DecidableEq, Repr

/-- A relation query against the store: takes the id list the template is
parameterized with (`$ids`), returns the decoded related entities or a
store error.  Each `get*` helper of lookup.go passes the singleton list
`[]string\x7bentity.ID\x7d`. -/
abbrev RelQuery := List String → Except Unit (List PropMap)

/-- The per-host body of the `GetHostsReport` enrichment loop
(lookup.go L46-74): for each enabled relation, issue its query with the
host's id and assign the field only when the query succeeded.  Also
returns the relation queries issued. -/
def enrichHost (getProcesses getContainers getContainerImages getPods : Bool)
    (procQ contQ imgQ podQ : RelQuery) (h : Host) :
    Host × List (RelTag × List String) :=
  let s1 : Host × List (RelTag × List String) :=
    if getProcesses then
      (match procQ [h.ID] with
       | .ok ps => { h with Processes := ps }
       | .error _ => h,
       [(.hostProcesses, [h.ID])])
    else (h, [])
  let s2 : Host × List (RelTag × List String) :=
    if getContainers then
      (match contQ [s1.1.ID] with
       | .ok cs => { s1.1 with Containers := cs }
       | .error _ => s1.1,
       s1.2 ++ [(.hostContainers, [s1.1.ID])])
    else s1
  let s3 : Host × List (RelTag × List String) :=
    if getContainerImages then
      (match imgQ [s2.1.ID] with
       | .ok ims => { s2.1 with ContainerImages := ims }
       | .error _ => s2.1,
       s2.2 ++ [(.hostContainerImages, [s2.1.ID])])
    else s2
  if getPods then
    (match podQ [s3.1.ID] with
     | .ok ps => { s3.1 with Pods := ps }
     | .error _ => s3.1,
     s3.2 ++ [(.hostPods, [s3.1.ID])])
  else s3

/-- `GetHostsReport` (lookup.go L24-76) above the generic node query:
`gen` is the decoded result of `getGenericDirectNodeReport[model.Host]`.
Expand-all when `InFieldFilter` is empty, else only the listed relations. -/
def GetHostsReport (filter : LookupFilter) (gen : Except Unit (List Host))
    (procQ contQ imgQ podQ : RelQuery) :
    Except Unit (List Host) × List (RelTag × List String) :=
  match gen with
  | .error e => (.error e, [])
  | .ok hosts =>
      let getProcesses :=
        if filter.InFieldFilter.isEmpty then true
        else InSlice "processes" filter.InFieldFilter
      let getContainerImages :=
        if filter.InFieldFilter.isEmpty then true
        else InSlice "container_images" filter.InFieldFilter
      let getContainers :=
        if filter.InFieldFilter.isEmpty then true
        else InSlice "containers" filter.InFieldFilter
      let getPods :=
        if filter.InFieldFilter.isEmpty then true
        else InSlice "pods" filter.InFieldFilter
      (.ok (hosts.map (fun h =>
          (enrichHost getProcesses getContainers getContainerImages getPods
            procQ contQ imgQ podQ h).1)),
       hosts.flatMap (fun h =>
          (enrichHost getProcesses getContainers getContainerImages getPods
            procQ contQ imgQ podQ h).2))

/-- The per-container body of the `GetContainersReport` loop
(lookup.go L94-107); the image field is only assigned when the query
succeeded and returned at least one image (`images[0]`). -/
def enrichContainer (getProcesses getContainerImages : Bool)
    (procQ imgQ : RelQuery) (c : Container) :
    Container × List (RelTag × List String) :=
  let s1 : Container × List (RelTag × List String) :=
    if getProcesses then
      (match procQ [c.ID] with
       | .ok ps => { c with Processes := ps }
       | .error _ => c,
       [(.containerProcesses, [c.ID])])
    else (c, [])
  if getContainerImages then
    (match imgQ [s1.1.ID] with
     | .ok (img :: _) => { s1.1 with ContainerImage := some img }
     | .ok [] => s1.1
     | .error _ => s1.1,
     s1.2 ++ [(.containerContainerImages, [s1.1.ID])])
  else s1

/-- `GetContainersReport` (lookup.go L78-110); the image relation's field
name in the filter is `"image"`. -/
def GetContainersReport (filter : LookupFilter)
    (gen : Except Unit (List Container)) (procQ imgQ : RelQuery) :
    Except Unit (List Container) × List (RelTag × List String) :=
  match gen with
  | .error e => (.error e, [])
  | .ok containers =>
      let getProcesses :=
        if filter.InFieldFilter.isEmpty then true
        else InSlice "processes" filter.InFieldFilter
      let getContainerImages :=
        if filter.InFieldFilter.isEmpty then true
        else InSlice "image" filter.InFieldFilter
      (.ok (containers.map (fun c =>
          (enrichContainer getProcesses getContainerImages procQ imgQ c).1)),
       containers.flatMap (fun c =>
          (enrichContainer getProcesses getContainerImages procQ imgQ c).2))

/-- `GetContainerImagesReport` (lookup.go L128-151); the containers
relation is gated on the field name `"image"`. -/
def GetContainerImagesReport (filter : LookupFilter)
    (gen : Except Unit (List ContainerImage)) (contQ : RelQuery) :
    Except Unit (List ContainerImage) × List (RelTag × List String) :=
  match gen with
  | .error e => (.error e, [])
  | .ok images =>
      let getContainers :=
        if filter.InFieldFilter.isEmpty then true
        else InSlice "image" filter.InFieldFilter
      (.ok (images.map (fun i =>
          if getContainers then
            match contQ [i.ID] with
            | .ok cs => { i with Containers := cs }
            | .error _ => i
          else i)),
       images.flatMap (fun i =>
          if getContainers then [(.imageContainers, [i.ID])] else []))

/-- `GetKubernetesClustersReport` (lookup.go L153-176). -/
def GetKubernetesClustersReport (filter : LookupFilter)
    (gen : Except Unit (List KubernetesCluster)) (hostsQ : RelQuery) :
    Except Unit (List KubernetesCluster) × List (RelTag × List String) :=
  match gen with
  | .error e => (.error e, [])
  | .ok clusters =>
      let getHosts :=
        if filter.InFieldFilter.isEmpty then true
        else InSlice "hosts" filter.InFieldFilter
      (.ok (clusters.map (fun c =>
          if getHosts then
            match hostsQ [c.ID] with
            | .ok hs => { c with Hosts := hs }
            | .error _ => c
          else c)),
       clusters.flatMap (fun c =>
          if getHosts then [(.clusterHosts, [c.ID])] else []))

/-- The `GetRegistryAccountReport` loop (lookup.go L193-199): unlike every
other report, an enrichment error is returned immediately (`return nil,
err`), aborting the report. -/
def registryLoop (imgQ : RelQuery) :
    List RegistryAccount →
    Except Unit (List RegistryAccount) × List (RelTag × List String)
  | [] => (.ok [], [])
  | r :: rest =>
      match imgQ [r.ID] with
      | .error e => (.error e, [(.registryContainerImages, [r.ID])])
      | .ok imgs =>
          match registryLoop imgQ rest with
          | (.error e, log) =>
              (.error e, (.registryContainerImages, [r.ID]) :: log)
          | (.ok rs, log) =>
              (.ok ({ r with ContainerImages := imgs } :: rs),
               (.registryContainerImages, [r.ID]) :: log)

/-- `GetRegistryAccountReport` (lookup.go L187-201).  Note: it consults no
filter flag — the images relation is always enriched. -/
def GetRegistryAccountReport (filter : LookupFilter)
    (gen : Except Unit (List RegistryAccount)) (imgQ : RelQuery) :
    Except Unit (List RegistryAccount) × List (RelTag × List String) :=
  match gen with
  | .error e => (.error e, [])
  | .ok regs => registryLoop imgQ regs

/-! ## Predicates used by the ingestion claims -/

/-- No asset node for the given `host_name` value: the store has no
`Node`-labelled node whose `node_id` is that value. -/
def NoAssetFor (g : Graph) (hostVal : Value) : Prop :=
  ∀ n ∈ g.nodes, n.label = "Node" → pmLookup n.props "node_id" ≠ some hostVal

/-- No batch item's target asset node exists in the store. -/
def NoAsset (g : Graph) (data : List Secret) : Prop :=
  ∀ s ∈ data, NoAssetFor g (.vStr s.HostName)

/-- The durable footprint one batch row is guaranteed to leave even when
its asset node is missing: a `Secret` node keyed by the row's composite
`rule_id`, an `IS` edge from it to a `Rule` node keyed by the rule id, and
a `SecretScan` node keyed by the row's `scan_id`. -/
def RowIngested (g : Graph) (row : SecretRow) : Prop :=
  ∃ ns ∈ g.nodes, ns.label = "Secret" ∧
    pmLookup ns.props "node_id" = some (pmLookupD row.secret "rule_id" .vNull) ∧
    ∃ nr ∈ g.nodes, nr.label = "Rule" ∧
      pmLookup nr.props "node_id" = some (pmLookupD row.rule "id" .vNull) ∧
      (⟨ns.nid, "IS", nr.nid⟩ : GEdge) ∈ g.edges ∧
      ∃ nm ∈ g.nodes, nm.label = "SecretScan" ∧
        pmLookup nm.props "node_id" = some (pmLookupD row.secret "scan_id" .vNull)

/-- The same footprint, phrased over the decoded `Secret` record. -/
def SecretIngested (g : Graph) (s : Secret) : Prop :=
  ∃ ns ∈ g.nodes, ns.label = "Secret" ∧
    pmLookup ns.props "node_id"
      = some (.vStr (toString s.Rule.ID ++ ":" ++ s.HostName)) ∧
    ∃ nr ∈ g.nodes, nr.label = "Rule" ∧
      pmLookup nr.props "node_id" = some (.vInt s.Rule.ID) ∧
      (⟨ns.nid, "IS", nr.nid⟩ : GEdge) ∈ g.edges ∧
      ∃ nm ∈ g.nodes, nm.label = "SecretScan" ∧
        pmLookup nm.props "node_id" = some (.vStr s.ScanID)

/-- A graph evolves monotonically from `g` to `g'`: every edge survives,
and every node survives with its identity, its label and its `node_id`
property intact. -/
def GraphExtends (g g' : Graph) : Prop :=
  (∀ e ∈ g.edges, e ∈ g'.edges) ∧
  (∀ n ∈ g.nodes, ∃ n' ∈ g'.nodes,
     n'.nid = n.nid ∧ n'.label = n.label ∧
     pmLookup n'.props "node_id" = pmLookup n.props "node_id")

/-- Every node of `g'` either carries one of the labels the secrets upsert
creates, or descends from a `g` node with the same label and `node_id`. -/
def OnlyIngestLabels (g g' : Graph) : Prop :=
  ∀ n' ∈ g'.nodes,
    (n'.label = "Rule" ∨ n'.label = "Secret" ∨ n'.label = "SecretScan") ∨
    ∃ n ∈ g.nodes, n.label = n'.label ∧
      pmLookup n'.props "node_id" = pmLookup n.props "node_id"

/-! ## Concrete sample inputs for the claims -/

/-- The spec's §8 ingestion scenario: `rule.id=1, host_name="h1",
node_id="s1", scan_id="scan1"`. -/
def sampleSecret : Secret :=
  { Timestamp := "t0", ImageLayerID := ""
  , Match := { StartingIndex := 0, RelativeStartingIndex := 0
             , RelativeEndingIndex := 0, FullFilename := "/etc/passwd"
             , MatchedContent := "AKIA" }
  , Rule := { ID := 1, Name := "aws-key", Part := "contents"
            , SignatureToMatch := "AKIA" }
  , Severity := { Level := "high", Score := 8 }
  , ContainerName := "", HostName := "h1", KubernetesClusterName := ""
  , Masked := "false", NodeID := "s1", NodeName := "h1", NodeType := "host"
  , ScanID := "scan1" }

/-- A store in which the asset node `Node\x7bnode_id:"h1"\x7d` pre-exists
(discovery has run). -/
def hostGraph : Graph :=
  ⟨[⟨0, "Node", [("node_id", .vStr "h1")]⟩], [], 1⟩

/-- An all-fields lookup window. -/
def w0 : FetchWindow := ⟨0, 0⟩

/-- A host page of two entities, as decoded by the generic node query. -/
def sampleHosts : List Host :=
  [⟨"h1", [], [], [], []⟩, ⟨"h2", [], [], [], []⟩]

/-- A registry-account page of one entity. -/
def sampleRegistry : RegistryAccount := ⟨"r1", []⟩

/-- A relation query that always succeeds with an empty page. -/
def okQ : RelQuery := fun _ => .ok []

/-- A read environment whose store works and answers `recs`. -/
def okReadEnv (recs : List Rec) : ReadEnv := ⟨true, true, true, .ok recs⟩

/-- Concrete maps for the classification-overlay witness. -/
def witnessPrimary : PropMap :=
  [("node_id", .vStr "host-1"), ("agent_running", .vBool true)]

/-- Concrete classification-node properties for the overlay witness:
collides with `agent_running` and carries its own `node_id`. -/
def witnessOverlay : PropMap :=
  [("node_id", .vStr "cls-1"), ("agent_running", .vBool false),
   ("cloud_provider", .vStr "aws")]

/-- The store after ingesting the sample batch once into an empty store at
statement time 1. -/
def c2Graph : Graph := runSecretsQuery 1 emptyGraph (secretsToMaps [sampleSecret])

/-- One commit of the sample batch into an empty store (statement time 1). -/
def c1Run1 : Except String Graph :=
  CommitFuncSecrets okWriteEnv 1 emptyGraph [sampleSecret]

/-- The same batch committed a second time, at statement time 2. -/
def c1Run2 : Except String Graph :=
  c1Run1.bind (fun g => CommitFuncSecrets okWriteEnv 2 g [sampleSecret])

/-- The same batch committed twice at the same statement time into a store
where the target host node pre-exists. -/
def c1HostRun2 : Except String Graph :=
  (CommitFuncSecrets okWriteEnv 1 hostGraph [sampleSecret]).bind
    (fun g => CommitFuncSecrets okWriteEnv 1 g [sampleSecret])

/-! # Theorems

First the shared lemma library about property maps and graph operations,
then one theorem (plus witness / counterexample where required) per
claim. -/

/-! ## Property-map lemmas -/

theorem pmLookup_insert_self (m : PropMap) (k : String) (v : Value) :
    pmLookup (pmInsert m k v) k = some v := by
  induction m with
  | nil => simp [pmInsert, pmLookup]
  | cons kv rest ih =>
      by_cases h : kv.1 = k
      · simp [pmInsert, h, pmLookup]
      · simp [pmInsert, h, pmLookup, ih]

theorem pmLookup_insert_ne (m : PropMap) (k k' : String) (v : Value)
    (h : k' ≠ k) : pmLookup (pmInsert m k v) k' = pmLookup m k' := by
  induction m with
  | nil => simp [pmInsert, pmLookup, Ne.symm h]
  | cons kv rest ih =>
      by_cases hk : kv.1 = k
      · simp [pmInsert, hk, pmLookup, Ne.symm h]
      · by_cases hk' : kv.1 = k'
        · simp [pmInsert, hk, pmLookup, hk', h]
        · simp [pmInsert, hk, pmLookup, hk', ih]

theorem pmAddAll_nil (m : PropMap) : pmAddAll m [] = m := rfl

theorem pmAddAll_cons (m : PropMap) (kv : String × Value)
    (rest : List (String × Value)) :
    pmAddAll m (kv :: rest) = pmAddAll (pmInsert m kv.1 kv.2) rest := rfl

theorem pmLookup_addAll_not_mem (add m : PropMap) (k : String)
    (h : k ∉ pmKeys add) : pmLookup (pmAddAll m add) k = pmLookup m k := by
  induction add generalizing m with
  | nil => rfl
  | cons kv rest ih =>
      simp only [pmKeys, List.map_cons, List.mem_cons, not_or] at h
      rw [pmAddAll_cons, ih _ (by
        intro hmem
        exact h.2 (by simpa [pmKeys] using hmem))]
      exact pmLookup_insert_ne _ _ _ _ (fun he => h.1 (he ▸ rfl))

/-! ## Graph-operation lemmas -/

theorem mergeNode_edges (g : Graph) (l : String) (k : PropMap) :
    ((mergeNode g l k).1).edges = g.edges := by
  unfold mergeNode
  cases findNode g l k <;> rfl

theorem mergeNode_freshId (g : Graph) (l : String) (k : PropMap) :
    g.freshId ≤ ((mergeNode g l k).1).freshId := by
  unfold mergeNode
  cases findNode g l k <;> simp

theorem mergeNode_node_mem (g : Graph) (l : String) (k : PropMap)
    {n : GNode} (h : n ∈ g.nodes) : n ∈ ((mergeNode g l k).1).nodes := by
  unfold mergeNode
  cases findNode g l k <;> simp [h]

theorem mergeNode_nodes_cases (g : Graph) (l : String) (k : PropMap)
    {n' : GNode} (h : n' ∈ ((mergeNode g l k).1).nodes) :
    n' ∈ g.nodes ∨ (n'.label = l ∧ n'.props = k) := by
  revert h
  unfold mergeNode
  cases findNode g l k with
  | none =>
      intro h
      rcases List.mem_append.mp h with h' | h'
      · exact Or.inl h'
      · rcases List.mem_singleton.mp h' with rfl
        exact Or.inr ⟨rfl, rfl⟩
  | some n => exact Or.inl

theorem mergeNode_found (g : Graph) (l : String) (k : PropMap)
    (hk : pmMatches k k) :
    ∃ n' ∈ ((mergeNode g l k).1).nodes,
      n'.nid = (mergeNode g l k).2 ∧ n'.label = l ∧ pmMatches n'.props k := by
  unfold mergeNode
  cases hf : findNode g l k with
  | some n =>
      have hmem := List.mem_of_find?_eq_some hf
      have hp := List.find?_some hf
      have hp' := of_decide_eq_true hp
      exact ⟨n, hmem, rfl, hp'.1, hp'.2⟩
  | none =>
      refine ⟨⟨g.freshId, l, k⟩, ?_, rfl, rfl, hk⟩
      simp

theorem setPlus_edges (g : Graph) (nid : Nat) (m : PropMap) :
    (setPlus g nid m).edges = g.edges := rfl

theorem setPlus_node_forward (g : Graph) (nid : Nat) (m : PropMap)
    (hm : "node_id" ∉ pmKeys m) {n : GNode} (h : n ∈ g.nodes) :
    ∃ n' ∈ (setPlus g nid m).nodes,
      n'.nid = n.nid ∧ n'.label = n.label ∧
      pmLookup n'.props "node_id" = pmLookup n.props "node_id" := by
  unfold setPlus
  by_cases hn : n.nid = nid
  · exact ⟨{ n with props := pmAddAll n.props m },
      List.mem_map.mpr ⟨n, h, by simp [hn]⟩,
      rfl, rfl, pmLookup_addAll_not_mem _ _ _ hm⟩
  · exact ⟨n, List.mem_map.mpr ⟨n, h, by simp [hn]⟩, rfl, rfl, rfl⟩

theorem setPlus_node_backward (g : Graph) (nid : Nat) (m : PropMap)
    (hm : "node_id" ∉ pmKeys m) {n' : GNode}
    (h : n' ∈ (setPlus g nid m).nodes) :
    ∃ n ∈ g.nodes, n'.nid = n.nid ∧ n'.label = n.label ∧
      pmLookup n'.props "node_id" = pmLookup n.props "node_id" := by
  rcases List.mem_map.mp h with ⟨n, hn, hmap⟩
  by_cases hcase : n.nid = nid
  · refine ⟨n, hn, ?_, ?_, ?_⟩ <;>
      simp [← hmap, hcase, pmLookup_addAll_not_mem _ _ _ hm]
  · refine ⟨n, hn, ?_, ?_, ?_⟩ <;> simp [← hmap, hcase]

theorem mergeEdge_nodes (g : Graph) (s : Nat) (t : String) (d : Nat) :
    (mergeEdge g s t d).nodes = g.nodes := by
  unfold mergeEdge
  split <;> rfl

theorem mergeEdge_freshId (g : Graph) (s : Nat) (t : String) (d : Nat) :
    (mergeEdge g s t d).freshId = g.freshId := by
  unfold mergeEdge
  split <;> rfl

theorem mergeEdge_mem_self (g : Graph) (s : Nat) (t : String) (d : Nat) :
    (⟨s, t, d⟩ : GEdge) ∈ (mergeEdge g s t d).edges := by
  unfold mergeEdge
  split
  · assumption
  · simp

theorem mergeEdge_mem_mono (g : Graph) (s : Nat) (t : String) (d : Nat)
    {e : GEdge} (h : e ∈ g.edges) : e ∈ (mergeEdge g s t d).edges := by
  unfold mergeEdge
  split
  · exact h
  · simp [h]

theorem mergeEdge_edgesOfType_ne (g : Graph) (s : Nat) (t : String) (d : Nat)
    (t' : String) (h : t' ≠ t) :
    edgesOfType (mergeEdge g s t d) t' = edgesOfType g t' := by
  unfold mergeEdge edgesOfType
  split
  · rfl
  · simp [List.filter_append, Ne.symm h]

theorem mergeNode_edgesOfType (g : Graph) (l : String) (k : PropMap)
    (t' : String) :
    edgesOfType ((mergeNode g l k).1) t' = edgesOfType g t' := by
  unfold edgesOfType
  rw [mergeNode_edges]

theorem setPlus_edgesOfType (g : Graph) (nid : Nat) (m : PropMap)
    (t' : String) : edgesOfType (setPlus g nid m) t' = edgesOfType g t' := rfl

/-! ## Extension and label-invariant lemmas for the ingestion proofs -/

theorem graphExtends_trans {g1 g2 g3 : Graph} (h12 : GraphExtends g1 g2)
    (h23 : GraphExtends g2 g3) : GraphExtends g1 g3 := by
  refine ⟨fun e he => h23.1 e (h12.1 e he), fun n hn => ?_⟩
  obtain ⟨n', hn', hnid, hlab, hid⟩ := h12.2 n hn
  obtain ⟨n'', hn'', hnid', hlab', hid'⟩ := h23.2 n' hn'
  exact ⟨n'', hn'', hnid'.trans hnid, hlab'.trans hlab, hid'.trans hid⟩

theorem graphExtends_mergeNode (g : Graph) (l : String) (k : PropMap) :
    GraphExtends g ((mergeNode g l k).1) := by
  refine ⟨fun e he => ?_, fun n hn => ?_⟩
  · rw [mergeNode_edges]; exact he
  · exact ⟨n, mergeNode_node_mem g l k hn, rfl, rfl, rfl⟩

theorem graphExtends_setPlus (g : Graph) (nid : Nat) (m : PropMap)
    (hm : "node_id" ∉ pmKeys m) : GraphExtends g (setPlus g nid m) :=
  ⟨fun e he => he, fun n hn => setPlus_node_forward g nid m hm hn⟩

theorem graphExtends_mergeEdge (g : Graph) (s : Nat) (t : String) (d : Nat) :
    GraphExtends g (mergeEdge g s t d) := by
  refine ⟨fun e he => mergeEdge_mem_mono g s t d he, fun n hn => ?_⟩
  rw [mergeEdge_nodes]
  exact ⟨n, hn, rfl, rfl, rfl⟩

theorem onlyIngestLabels_trans {g1 g2 g3 : Graph}
    (h12 : OnlyIngestLabels g1 g2) (h23 : OnlyIngestLabels g2 g3) :
    OnlyIngestLabels g1 g3 := by
  intro n'' hn''
  rcases h23 n'' hn'' with h | ⟨n', hn', hlab, hid⟩
  · exact Or.inl h
  · rcases h12 n' hn' with h | ⟨n, hn, hlab', hid'⟩
    · rcases h with h | h | h
      · exact Or.inl (Or.inl (hlab.symm.trans h))
      · exact Or.inl (Or.inr (Or.inl (hlab.symm.trans h)))
      · exact Or.inl (Or.inr (Or.inr (hlab.symm.trans h)))
    · exact Or.inr ⟨n, hn, hlab'.trans hlab, hid.trans hid'⟩

theorem onlyIngestLabels_mergeNode (g : Graph) (l : String) (k : PropMap)
    (hl : l = "Rule" ∨ l = "Secret" ∨ l = "SecretScan") :
    OnlyIngestLabels g ((mergeNode g l k).1) := by
  intro n' hn'
  rcases mergeNode_nodes_cases g l k hn' with h | ⟨hlab, _⟩
  · exact Or.inr ⟨n', h, rfl, rfl⟩
  · rcases hl with h | h | h
    · exact Or.inl (Or.inl (hlab.trans h))
    · exact Or.inl (Or.inr (Or.inl (hlab.trans h)))
    · exact Or.inl (Or.inr (Or.inr (hlab.trans h)))

theorem onlyIngestLabels_setPlus (g : Graph) (nid : Nat) (m : PropMap)
    (hm : "node_id" ∉ pmKeys m) : OnlyIngestLabels g (setPlus g nid m) := by
  intro n' hn'
  obtain ⟨n, hn, _, hlab, hid⟩ := setPlus_node_backward g nid m hm hn'
  exact Or.inr ⟨n, hn, hlab.symm, hid⟩

theorem onlyIngestLabels_mergeEdge (g : Graph) (s : Nat) (t : String)
    (d : Nat) : OnlyIngestLabels g (mergeEdge g s t d) := by
  intro n' hn'
  rw [mergeEdge_nodes] at hn'
  exact Or.inr ⟨n', hn', rfl, rfl⟩

theorem noAssetFor_of_onlyIngest {g g' : Graph} {hv : Value}
    (hna : NoAssetFor g hv) (ho : OnlyIngestLabels g g') :
    NoAssetFor g' hv := by
  intro n' hn' hlab
  rcases ho n' hn' with h | ⟨n, hn, hlabeq, hid⟩
  · rcases h with h | h | h <;> simp [hlab] at h
  · rw [hid]
    exact hna n hn (hlabeq ▸ hlab)

theorem findNode_none_of_noAssetFor {g : Graph} {hv : Value}
    (hna : NoAssetFor g hv) :
    findNode g "Node" [("node_id", hv)] = none := by
  unfold findNode
  rw [List.find?_eq_none]
  intro n hn
  simp only [decide_eq_true_eq, not_and]
  intro hlab hmatch
  exact hna n hn hlab (hmatch ("node_id", hv) (by simp))

theorem rowIngested_mono {g g' : Graph} {row : SecretRow}
    (hE : GraphExtends g g') (h : RowIngested g row) : RowIngested g' row := by
  obtain ⟨ns, hnsm, hnsl, hnsi, nr, hnrm, hnrl, hnri, hedge, nm, hnmm, hnml, hnmi⟩ := h
  obtain ⟨ns', hnsm', hnsnid, hnslab, hnsid⟩ := hE.2 ns hnsm
  obtain ⟨nr', hnrm', hnrnid, hnrlab, hnrid⟩ := hE.2 nr hnrm
  obtain ⟨nm', hnmm', _, hnmlab, hnmid⟩ := hE.2 nm hnmm
  refine ⟨ns', hnsm', hnslab.trans hnsl, hnsid.trans hnsi,
    nr', hnrm', hnrlab.trans hnrl, hnrid.trans hnri, ?_,
    nm', hnmm', hnmlab.trans hnml, hnmid.trans hnmi⟩
  rw [hnsnid, hnrnid]
  exact hE.1 _ hedge

theorem pmMatches_singleton (k : String) (v : Value) :
    pmMatches [(k, v)] [(k, v)] := by
  intro kv hkv
  rcases List.mem_singleton.mp hkv with rfl
  simp [pmLookup]

theorem pmMatches_scanKey (a b : Value) (t : Nat) :
    pmMatches [("node_id", a), ("host_name", b), ("time_stamp", .vInt t)]
      [("node_id", a), ("host_name", b), ("time_stamp", .vInt t)] := by
  intro kv hkv
  rcases List.mem_cons.mp hkv with rfl | hkv'
  · simp [pmLookup]
  · rcases List.mem_cons.mp hkv' with rfl | hkv''
    · simp [pmLookup]
    · rcases List.mem_singleton.mp hkv'' with rfl
      simp [pmLookup]

/-- The behaviour of one secrets-upsert row when the row's target asset
node is absent: the graph only grows (nodes with ingestion labels, plus
possibly an `IS` edge), no `DETECTED` or `SCANNED` edge appears, and the
Rule/Secret/SecretScan footprint of the row is present afterwards. -/
theorem secretsQueryRow_spec (t : Nat) (row : SecretRow) (g : Graph)
    (hrk : "node_id" ∉ pmKeys row.rule)
    (hna : NoAssetFor g (pmLookupD row.secret "host_name" .vNull)) :
    GraphExtends g (secretsQueryRow t g row) ∧
    OnlyIngestLabels g (secretsQueryRow t g row) ∧
    edgesOfType (secretsQueryRow t g row) "DETECTED" = edgesOfType g "DETECTED" ∧
    edgesOfType (secretsQueryRow t g row) "SCANNED" = edgesOfType g "SCANNED" ∧
    RowIngested (secretsQueryRow t g row) row := by
  have hRmatch := pmMatches_singleton "node_id" (pmLookupD row.rule "id" .vNull)
  have hSmatch := pmMatches_singleton "node_id" (pmLookupD row.secret "rule_id" .vNull)
  have hMmatch := pmMatches_scanKey (pmLookupD row.secret "scan_id" .vNull)
    (pmLookupD row.secret "host_name" .vNull) t
  set G1 := (mergeNode g "Rule" [("node_id", pmLookupD row.rule "id" .vNull)]).1 with hG1
  set idR := (mergeNode g "Rule" [("node_id", pmLookupD row.rule "id" .vNull)]).2 with hidR
  set G2 := setPlus G1 idR row.rule with hG2
  set G3 := (mergeNode G2 "Secret" [("node_id", pmLookupD row.secret "rule_id" .vNull)]).1 with hG3
  set idS := (mergeNode G2 "Secret" [("node_id", pmLookupD row.secret "rule_id" .vNull)]).2 with hidS
  set G4 := mergeEdge G3 idS "IS" idR with hG4
  set G5 := (mergeNode G4 "SecretScan"
      [ ("node_id", pmLookupD row.secret "scan_id" .vNull)
      , ("host_name", pmLookupD row.secret "host_name" .vNull)
      , ("time_stamp", .vInt t) ]).1 with hG5
  have e1 : GraphExtends g G1 := by rw [hG1]; exact graphExtends_mergeNode _ _ _
  have e2 : GraphExtends G1 G2 := by rw [hG2]; exact graphExtends_setPlus _ _ _ hrk
  have e3 : GraphExtends G2 G3 := by rw [hG3]; exact graphExtends_mergeNode _ _ _
  have e4 : GraphExtends G3 G4 := by rw [hG4]; exact graphExtends_mergeEdge _ _ _ _
  have e5 : GraphExtends G4 G5 := by rw [hG5]; exact graphExtends_mergeNode _ _ _
  have eAll : GraphExtends g G5 :=
    graphExtends_trans e1 (graphExtends_trans e2
      (graphExtends_trans e3 (graphExtends_trans e4 e5)))
  have o1 : OnlyIngestLabels g G1 := by
    rw [hG1]; exact onlyIngestLabels_mergeNode _ _ _ (Or.inl rfl)
  have o2 : OnlyIngestLabels G1 G2 := by
    rw [hG2]; exact onlyIngestLabels_setPlus _ _ _ hrk
  have o3 : OnlyIngestLabels G2 G3 := by
    rw [hG3]; exact onlyIngestLabels_mergeNode _ _ _ (Or.inr (Or.inl rfl))
  have o4 : OnlyIngestLabels G3 G4 := by
    rw [hG4]; exact onlyIngestLabels_mergeEdge _ _ _ _
  have o5 : OnlyIngestLabels G4 G5 := by
    rw [hG5]; exact onlyIngestLabels_mergeNode _ _ _ (Or.inr (Or.inr rfl))
  have oAll : OnlyIngestLabels g G5 :=
    onlyIngestLabels_trans o1 (onlyIngestLabels_trans o2
      (onlyIngestLabels_trans o3 (onlyIngestLabels_trans o4 o5)))
  have hfind : findNode G5 "Node"
      [("node_id", pmLookupD row.secret "host_name" .vNull)] = none :=
    findNode_none_of_noAssetFor (noAssetFor_of_onlyIngest hna oAll)
  have key : secretsQueryRow t g row = G5 := by
    simp only [secretsQueryRow]
    rw [← hG1, ← hidR, ← hG2, ← hG3, ← hidS, ← hG4, ← hG5, hfind]
  -- the Rule node, followed through the pipeline
  obtain ⟨nr1, hrm1, hrnid1, hrlab1, hrmatch1⟩ :=
    mergeNode_found g "Rule" [("node_id", pmLookupD row.rule "id" .vNull)] hRmatch
  rw [← hG1] at hrm1
  rw [← hidR] at hrnid1
  have hrid1 : pmLookup nr1.props "node_id" = some (pmLookupD row.rule "id" .vNull) :=
    hrmatch1 _ (List.mem_singleton.mpr rfl)
  obtain ⟨nr2, hrm2, hrnid2, hrlab2, hrid2⟩ :=
    setPlus_node_forward G1 idR row.rule hrk hrm1
  rw [← hG2] at hrm2
  have hrm3 : nr2 ∈ G3.nodes := by
    rw [hG3]
    exact mergeNode_node_mem _ _ _ hrm2
  have hrm4 : nr2 ∈ G4.nodes := by
    rw [hG4, mergeEdge_nodes]
    exact hrm3
  have hrm5 : nr2 ∈ G5.nodes := by
    rw [hG5]
    exact mergeNode_node_mem _ _ _ hrm4
  -- the Secret node, followed through the pipeline
  obtain ⟨ns3, hsm3, hsnid3, hslab3, hsmatch3⟩ :=
    mergeNode_found G2 "Secret" [("node_id", pmLookupD row.secret "rule_id" .vNull)] hSmatch
  rw [← hG3] at hsm3
  rw [← hidS] at hsnid3
  have hsid3 : pmLookup ns3.props "node_id" = some (pmLookupD row.secret "rule_id" .vNull) :=
    hsmatch3 _ (List.mem_singleton.mpr rfl)
  have hsm4 : ns3 ∈ G4.nodes := by
    rw [hG4, mergeEdge_nodes]
    exact hsm3
  have hsm5 : ns3 ∈ G5.nodes := by
    rw [hG5]
    exact mergeNode_node_mem _ _ _ hsm4
  -- the IS edge
  have hedge4 : (⟨idS, "IS", idR⟩ : GEdge) ∈ G4.edges := by
    rw [hG4]
    exact mergeEdge_mem_self _ _ _ _
  have hedge5 : (⟨idS, "IS", idR⟩ : GEdge) ∈ G5.edges := by
    rw [hG5, mergeNode_edges]
    exact hedge4
  -- the SecretScan node
  obtain ⟨nm5, hmm5, _, hmlab5, hmmatch5⟩ :=
    mergeNode_found G4 "SecretScan"
      [ ("node_id", pmLookupD row.secret "scan_id" .vNull)
      , ("host_name", pmLookupD row.secret "host_name" .vNull)
      , ("time_stamp", .vInt t) ] hMmatch
  rw [← hG5] at hmm5
  have hmid5 : pmLookup nm5.props "node_id" = some (pmLookupD row.secret "scan_id" .vNull) :=
    hmmatch5 ("node_id", pmLookupD row.secret "scan_id" .vNull) (by simp)
  refine ⟨key ▸ eAll, key ▸ oAll, ?_, ?_, ?_⟩
  · rw [key, hG5, mergeNode_edgesOfType, hG4,
      mergeEdge_edgesOfType_ne _ _ _ _ _ (by decide), hG3, mergeNode_edgesOfType,
      hG2, setPlus_edgesOfType, hG1, mergeNode_edgesOfType]
  · rw [key, hG5, mergeNode_edgesOfType, hG4,
      mergeEdge_edgesOfType_ne _ _ _ _ _ (by decide), hG3, mergeNode_edgesOfType,
      hG2, setPlus_edgesOfType, hG1, mergeNode_edgesOfType]
  · rw [key]
    refine ⟨ns3, hsm5, hslab3, hsid3, nr2, hrm5, hrlab2.trans hrlab1,
      hrid2.trans hrid1, ?_, nm5, hmm5, hmlab5, hmid5⟩
    rw [hsnid3, hrnid2.trans hrnid1]
    exact hedge5

theorem graphExtends_refl (g : Graph) : GraphExtends g g :=
  ⟨fun _ he => he, fun n hn => ⟨n, hn, rfl, rfl, rfl⟩⟩

theorem onlyIngestLabels_refl (g : Graph) : OnlyIngestLabels g g :=
  fun n' hn' => Or.inr ⟨n', hn', rfl, rfl⟩

/-- `secretsQueryRow_spec` lifted to a whole batch, by induction in batch
order. -/
theorem runSecretsQuery_spec (t : Nat) (rows : List SecretRow) :
    ∀ g : Graph,
    (∀ row ∈ rows, "node_id" ∉ pmKeys row.rule) →
    (∀ row ∈ rows, NoAssetFor g (pmLookupD row.secret "host_name" .vNull)) →
    GraphExtends g (runSecretsQuery t g rows) ∧
    OnlyIngestLabels g (runSecretsQuery t g rows) ∧
    edgesOfType (runSecretsQuery t g rows) "DETECTED" = edgesOfType g "DETECTED" ∧
    edgesOfType (runSecretsQuery t g rows) "SCANNED" = edgesOfType g "SCANNED" ∧
    ∀ row ∈ rows, RowIngested (runSecretsQuery t g rows) row := by
  induction rows with
  | nil =>
      intro g _ _
      exact ⟨graphExtends_refl g, onlyIngestLabels_refl g, rfl, rfl, by simp⟩
  | cons row rest ih =>
      intro g hrk hna
      have hstep := secretsQueryRow_spec t row g (hrk row (by simp)) (hna row (by simp))
      have hrun : runSecretsQuery t g (row :: rest)
          = runSecretsQuery t (secretsQueryRow t g row) rest := rfl
      have hrk' : ∀ r ∈ rest, "node_id" ∉ pmKeys r.rule :=
        fun r hr => hrk r (List.mem_cons_of_mem _ hr)
      have hna' : ∀ r ∈ rest,
          NoAssetFor (secretsQueryRow t g row) (pmLookupD r.secret "host_name" .vNull) :=
        fun r hr =>
          noAssetFor_of_onlyIngest (hna r (List.mem_cons_of_mem _ hr)) hstep.2.1
      obtain ⟨ihE, ihO, ihD, ihS, ihR⟩ := ih (secretsQueryRow t g row) hrk' hna'
      refine ⟨?_, ?_, ?_, ?_, ?_⟩
      · rw [hrun]; exact graphExtends_trans hstep.1 ihE
      · rw [hrun]; exact onlyIngestLabels_trans hstep.2.1 ihO
      · rw [hrun, ihD]; exact hstep.2.2.1
      · rw [hrun, ihS]; exact hstep.2.2.2.1
      · intro r hr
        rcases List.mem_cons.mp hr with rfl | hr'
        · rw [hrun]; exact rowIngested_mono ihE hstep.2.2.2.2
        · rw [hrun]; exact ihR r hr'

/-! ## Computed facts about `secretToRow` -/

theorem secretToRow_host (s : Secret) :
    pmLookupD (secretToRow s).secret "host_name" .vNull = .vStr s.HostName := rfl

theorem secretToRow_rule_keys (s : Secret) :
    pmKeys (secretToRow s).rule = ["id", "name", "part", "signature_to_match"] := rfl

theorem secretToRow_rule_no_node_id (s : Secret) :
    "node_id" ∉ pmKeys (secretToRow s).rule := by
  rw [secretToRow_rule_keys]
  simp

/-! ## Claim C1 -/

/-- C1: the claim states that committing an identical batch twice leaves
the same final node and edge counts as committing it once.  The code
violates this: the `SecretScan` merge pattern contains `time_stamp:
timestamp()`, so a re-ingestion at a later statement time matches nothing
and creates a second `SecretScan` node (first two conjuncts: 1 scan node /
3 nodes after one run, 2 scan nodes / 4 nodes after the re-run at time 2).
The third conjunct shows the duplication is not only about the clock: with
the target host present, `SET n += row` overwrites the `Secret` node's
`node_id` with the wire record's own `node_id`, so re-ingesting even at
the *same* statement time creates a second `Secret` node. -/
theorem c1_reingestion_duplicates_nodes :
    c1Run1.map (fun g => (countLabel g "SecretScan", g.nodes.length)) = .ok (1, 3) ∧
    c1Run2.map (fun g => (countLabel g "SecretScan", g.nodes.length)) = .ok (2, 4) ∧
    c1HostRun2.map (fun g => countLabel g "Secret") = .ok 2 := by
  decide

/-! ## Claim C2 -/

/-- C2 (counterexample): the claim states that an item whose target asset
node is missing still gets its Finding linked to its Scan via `DETECTED`.
Ingesting the spec's §8 sample into an empty store (no asset node) shows
the Finding (`Secret`), `Rule` and `SecretScan` nodes and the `IS` edge are
created and the call succeeds, but `edgesOfType c2Graph "DETECTED" = []`:
the plain `MATCH (l:Node ...)` drops the row, omitting `DETECTED` together
with `SCANNED`, and also skipping `SET n += row` (the `Secret` node carries
no `host_name`, last conjunct). -/
theorem c2_missing_asset_counterexample :
    CommitFuncSecrets okWriteEnv 1 emptyGraph [sampleSecret] = .ok c2Graph ∧
    countLabel c2Graph "Secret" = 1 ∧
    countLabel c2Graph "Rule" = 1 ∧
    countLabel c2Graph "SecretScan" = 1 ∧
    edgesOfType c2Graph "IS" = [⟨1, "IS", 0⟩] ∧
    edgesOfType c2Graph "DETECTED" = [] ∧
    edgesOfType c2Graph "SCANNED" = [] ∧
    c2Graph.nodes.map (fun n => (n.label, pmLookup n.props "host_name"))
      = [("Rule", none), ("Secret", none), ("SecretScan", some (.vStr "h1"))] := by
  decide

set_option maxHeartbeats 1000000 in
/-- C2 (amended): for every batch none of whose items has its target asset
node in the store, `CommitFuncSecrets` still returns success, every item's
Finding node is created with its composite key and linked to its upserted
Rule via `IS`, and its Scan node is created — but both the `SCANNED` *and*
the `DETECTED` edges are omitted (no edge of either type is added), and the
Finding's remaining row properties are not written. -/
theorem c2_missing_asset_amended (t : Nat) (data : List Secret) (g : Graph)
    (h : NoAsset g data) :
    ∃ g', CommitFuncSecrets okWriteEnv t g data = .ok g' ∧
      edgesOfType g' "DETECTED" = edgesOfType g "DETECTED" ∧
      edgesOfType g' "SCANNED" = edgesOfType g "SCANNED" ∧
      ∀ s ∈ data, SecretIngested g' s := by
  have hrk : ∀ row ∈ secretsToMaps data, "node_id" ∉ pmKeys row.rule := by
    intro row hrow
    rcases List.mem_map.mp hrow with ⟨s, _, rfl⟩
    exact secretToRow_rule_no_node_id s
  have hna : ∀ row ∈ secretsToMaps data,
      NoAssetFor g (pmLookupD row.secret "host_name" .vNull) := by
    intro row hrow
    rcases List.mem_map.mp hrow with ⟨s, hs, rfl⟩
    rw [secretToRow_host]
    exact h s hs
  obtain ⟨hE, _, hD, hS, hR⟩ := runSecretsQuery_spec t (secretsToMaps data) g hrk hna
  refine ⟨runSecretsQuery t g (secretsToMaps data), rfl, hD, hS, ?_⟩
  intro s hs
  exact hR (secretToRow s) (List.mem_map_of_mem _ hs)

/-- Witness for C2 (amended) at the spec's §8 sample on an empty store. -/
theorem c2_missing_asset_amended_witness :
    NoAsset emptyGraph [sampleSecret] ∧
    ∃ g', CommitFuncSecrets okWriteEnv 1 emptyGraph [sampleSecret] = .ok g' ∧
      edgesOfType g' "DETECTED" = edgesOfType emptyGraph "DETECTED" ∧
      edgesOfType g' "SCANNED" = edgesOfType emptyGraph "SCANNED" ∧
      ∀ s ∈ [sampleSecret], SecretIngested g' s := by
  have hp : NoAsset emptyGraph [sampleSecret] := by
    intro s _ n hn
    simp [emptyGraph] at hn
  exact ⟨hp, c2_missing_asset_amended 1 [sampleSecret] emptyGraph hp⟩

/-! ## Claim C8 -/

/-- C8: `CommitFuncSecretScanStatus` with an empty batch returns success,
opens no session or transaction, and performs zero store operations (its
trace is empty), whatever the environment and store state. -/
theorem c8_empty_batch_is_noop (env : WriteEnv) (g : Graph) :
    CommitFuncSecretScanStatus env g [] = (.ok g, []) := rfl

/-! ## Claim C10 -/

/-- C10: with an empty batch, `CommitFuncSecretScanStatus` returns success
even when the namespace's store client cannot be obtained (`clientOk :=
false`): the client error is only examined after the empty-batch early
return at secrets.go L86-88. -/
theorem c10_empty_batch_ignores_client_error (g : Graph) (b1 b2 b3 : Bool) :
    CommitFuncSecretScanStatus ⟨false, b1, b2, b3⟩ g [] = (.ok g, []) := rfl

/-! ## Claim C7 -/

/-- C7 (counterexample): the claim states that the Rule group's properties
are spread into the flattened map handed to the store.  On the sample
record they are not: `signature_to_match` and `name` are absent from the
`Secret` map (they travel only in the separate `Rule` map), while the
composite `rule_id` is present. -/
theorem c7_rule_not_spread_counterexample :
    pmLookup (secretToRow sampleSecret).secret "signature_to_match" = none ∧
    pmLookup (secretToRow sampleSecret).secret "name" = none ∧
    pmLookup (secretToRow sampleSecret).secret "rule_id" = some (.vStr "1:h1") := by
  decide

set_option maxHeartbeats 1000000 in
/-- The flattened `Secret` map of `secretToRow`, computed: the record's
flat fields, then the spread Severity and Match groups, then the derived
`rule_id`. -/
theorem secretToRow_secret_eq (s : Secret) :
    (secretToRow s).secret =
      [ ("@timestamp", .vStr s.Timestamp)
      , ("ImageLayerId", .vStr s.ImageLayerID)
      , ("container_name", .vStr s.ContainerName)
      , ("host_name", .vStr s.HostName)
      , ("kubernetes_cluster_name", .vStr s.KubernetesClusterName)
      , ("masked", .vStr s.Masked)
      , ("node_id", .vStr s.NodeID)
      , ("node_name", .vStr s.NodeName)
      , ("node_type", .vStr s.NodeType)
      , ("scan_id", .vStr s.ScanID)
      , ("level", .vStr s.Severity.Level)
      , ("score", .vFloat s.Severity.Score)
      , ("starting_index", .vInt s.Match.StartingIndex)
      , ("relative_starting_index", .vInt s.Match.RelativeStartingIndex)
      , ("relative_ending_index", .vInt s.Match.RelativeEndingIndex)
      , ("full_filename", .vStr s.Match.FullFilename)
      , ("matched_content", .vStr s.Match.MatchedContent)
      , ("rule_id", .vStr (toString s.Rule.ID ++ ":" ++ s.HostName)) ] := rfl

/-- C7 (amended): for every Secret record, the flattened map handed to the
store has `rule_id = "<Rule.ID>:<HostName>"`, the *Match* and *Severity*
group properties spread into the top level, and the nested keys `Rule`,
`Match`, `Severity` removed — but the *Rule* group's own properties (`id`,
`name`, `part`, `signature_to_match`) are **not** spread into it: they are
carried alongside as the separate `Rule` map used to upsert the Rule
node. -/
theorem c7_flatten_amended (s : Secret) :
    pmLookup (secretToRow s).secret "rule_id"
      = some (.vStr (toString s.Rule.ID ++ ":" ++ s.HostName)) ∧
    pmLookup (secretToRow s).secret "starting_index" = some (.vInt s.Match.StartingIndex) ∧
    pmLookup (secretToRow s).secret "relative_starting_index"
      = some (.vInt s.Match.RelativeStartingIndex) ∧
    pmLookup (secretToRow s).secret "relative_ending_index"
      = some (.vInt s.Match.RelativeEndingIndex) ∧
    pmLookup (secretToRow s).secret "full_filename" = some (.vStr s.Match.FullFilename) ∧
    pmLookup (secretToRow s).secret "matched_content" = some (.vStr s.Match.MatchedContent) ∧
    pmLookup (secretToRow s).secret "level" = some (.vStr s.Severity.Level) ∧
    pmLookup (secretToRow s).secret "score" = some (.vFloat s.Severity.Score) ∧
    pmLookup (secretToRow s).secret "Rule" = none ∧
    pmLookup (secretToRow s).secret "Match" = none ∧
    pmLookup (secretToRow s).secret "Severity" = none ∧
    pmLookup (secretToRow s).secret "id" = none ∧
    pmLookup (secretToRow s).secret "name" = none ∧
    pmLookup (secretToRow s).secret "part" = none ∧
    pmLookup (secretToRow s).secret "signature_to_match" = none ∧
    (secretToRow s).rule = liftPM (toMapRule s.Rule) := by
  rw [secretToRow_secret_eq]
  refine ⟨?_, ?_, ?_, ?_, ?_, ?_, ?_, ?_, ?_, ?_, ?_, ?_, ?_, ?_, ?_, rfl⟩ <;>
    simp [pmLookup]

/-! ## Claim C5 -/

theorem mergeIs_foldl_stable (props : PropMap) (k : String)
    (h : ∀ kv ∈ props, kv.1 ≠ k) :
    ∀ m, pmLookup (props.foldl
        (fun acc kv => if kv.1 ≠ "node_id" then pmInsert acc kv.1 kv.2 else acc) m) k
      = pmLookup m k := by
  induction props with
  | nil => intro m; rfl
  | cons kv rest ih =>
      intro m
      have hk : kv.1 ≠ k := h kv (by simp)
      have hrest : ∀ kv' ∈ rest, kv'.1 ≠ k := fun kv' h' => h kv' (by simp [h'])
      simp only [List.foldl_cons]
      by_cases hni : kv.1 ≠ "node_id"
      · rw [if_pos hni, ih hrest, pmLookup_insert_ne _ _ _ _ (Ne.symm hk)]
      · rw [if_neg hni, ih hrest]

theorem mergeIs_foldl_node_id (props : PropMap) :
    ∀ m, pmLookup (props.foldl
        (fun acc kv => if kv.1 ≠ "node_id" then pmInsert acc kv.1 kv.2 else acc) m)
      "node_id" = pmLookup m "node_id" := by
  induction props with
  | nil => intro m; rfl
  | cons kv rest ih =>
      intro m
      simp only [List.foldl_cons]
      by_cases hni : kv.1 ≠ "node_id"
      · rw [if_pos hni, ih, pmLookup_insert_ne _ _ _ _ (Ne.symm hni)]
      · rw [if_neg hni, ih]

theorem mergeIs_foldl_mem (props : PropMap) (hnd : (pmKeys props).Nodup)
    {k : String} {v : Value} (hkv : (k, v) ∈ props) (hk : k ≠ "node_id") :
    ∀ m, pmLookup (props.foldl
        (fun acc kv => if kv.1 ≠ "node_id" then pmInsert acc kv.1 kv.2 else acc) m) k
      = some v := by
  induction props with
  | nil => exact absurd hkv (List.not_mem_nil _)
  | cons kv rest ih =>
      intro m
      simp only [List.foldl_cons]
      rw [show pmKeys (kv :: rest) = kv.1 :: pmKeys rest from rfl] at hnd
      have hnd' := List.nodup_cons.mp hnd
      rcases List.mem_cons.mp hkv with heq | hmem
      · have h1 : kv.1 = k := by rw [← heq]
        have h2 : kv.2 = v := by rw [← heq]
        have hrest : ∀ kv' ∈ rest, kv'.1 ≠ k := by
          intro kv' h' he
          have hmem2 : kv'.1 ∈ pmKeys rest := List.mem_map.mpr ⟨kv', h', rfl⟩
          rw [he, ← h1] at hmem2
          exact hnd'.1 hmem2
        rw [if_pos (by rw [h1]; exact hk)]
        rw [mergeIs_foldl_stable rest k hrest, h1, h2, pmLookup_insert_self]
      · exact ih hnd'.2 hmem _

theorem mapRecord_eq (filter : LookupFilter) (rec : Rec) (out : PropMap)
    (hout : mapRecord filter rec = some out) :
    out = mergeIsProps (primaryMap filter rec) rec.eVal := by
  unfold mapRecord at hout
  unfold primaryMap
  by_cases hf : filter.InFieldFilter.isEmpty
  · rw [if_pos hf] at hout
    rw [if_pos hf]
    cases hnv : rec.nVal with
    | none => rw [hnv] at hout; cases hout
    | some base =>
        rw [hnv] at hout
        simp only [Option.getD_some]
        exact (Option.some.inj hout).symm
  · rw [if_neg hf] at hout
    rw [if_neg hf]
    exact (Option.some.inj hout).symm

/-- C5: for every mapped record that carries a joined classification
(`IS`) node, the output property map contains every property of the
classification node except `node_id` with the classification node's value
(so on a key collision the classification value overwrites the primary
node's value — the conclusion holds whatever the primary map held at that
key), while the map's `node_id` is exactly the primary node's `node_id`,
untouched by the overlay. -/
theorem c5_classification_overlay (filter : LookupFilter) (rec : Rec)
    (props out : PropMap) (he : rec.eVal = some props)
    (hnd : (pmKeys props).Nodup) (hout : mapRecord filter rec = some out) :
    (∀ k v, (k, v) ∈ props → k ≠ "node_id" → pmLookup out k = some v) ∧
    pmLookup out "node_id" = pmLookup (primaryMap filter rec) "node_id" := by
  have hform := mapRecord_eq filter rec out hout
  rw [hform, he]
  unfold mergeIsProps
  exact ⟨fun k v hkv hk => mergeIs_foldl_mem props hnd hkv hk _,
    mergeIs_foldl_node_id props _⟩

/-- Witness for C5: a record whose classification node collides with the
primary on `agent_running` and carries its own `node_id`; the overlay's
value wins on the collision, the overlay-only key is added, and `node_id`
stays the primary's. -/
theorem c5_classification_overlay_witness :
    ((⟨some witnessPrimary, [], some witnessOverlay⟩ : Rec).eVal = some witnessOverlay) ∧
    (pmKeys witnessOverlay).Nodup ∧
    mapRecord ⟨[], [], w0⟩ (⟨some witnessPrimary, [], some witnessOverlay⟩ : Rec)
      = some (mergeIsProps witnessPrimary (some witnessOverlay)) ∧
    pmLookup (mergeIsProps witnessPrimary (some witnessOverlay)) "agent_running"
      = some (.vBool false) ∧
    pmLookup (mergeIsProps witnessPrimary (some witnessOverlay)) "cloud_provider"
      = some (.vStr "aws") ∧
    pmLookup (mergeIsProps witnessPrimary (some witnessOverlay)) "node_id"
      = pmLookup (primaryMap ⟨[], [], w0⟩ (⟨some witnessPrimary, [], some witnessOverlay⟩ : Rec))
          "node_id" := by
  have hnd : (pmKeys witnessOverlay).Nodup := by decide
  have happ := c5_classification_overlay ⟨[], [], w0⟩
    (⟨some witnessPrimary, [], some witnessOverlay⟩ : Rec) witnessOverlay
    (mergeIsProps witnessPrimary (some witnessOverlay)) rfl hnd rfl
  exact ⟨rfl, hnd, rfl,
    happ.1 "agent_running" (.vBool false) (by decide) (by decide),
    happ.1 "cloud_provider" (.vStr "aws") (by decide) (by decide),
    happ.2⟩

/-! ## Claims C6, C9, C4: the enrichment layer -/

theorem flatMap_singleton_map {α β : Type} (l : List α) (f : α → β) :
    l.flatMap (fun x => [f x]) = l.map f := by
  induction l <;> simp [*]

theorem flatMap_four_length {α β : Type} (l : List α) (f1 f2 f3 f4 : α → β) :
    (l.flatMap (fun x => [f1 x, f2 x, f3 x, f4 x])).length = 4 * l.length := by
  induction l with
  | nil => rfl
  | cons x rest ih =>
      simp only [List.flatMap_cons, List.length_append, List.length_cons,
        List.length_nil, ih]
      omega

theorem enrichHost_log_all (procQ contQ imgQ podQ : RelQuery) (h : Host) :
    (enrichHost true true true true procQ contQ imgQ podQ h).2
      = [ (RelTag.hostProcesses, [h.ID]), (RelTag.hostContainers, [h.ID])
        , (RelTag.hostContainerImages, [h.ID]), (RelTag.hostPods, [h.ID]) ] := by
  simp only [enrichHost, if_true]
  split <;> split <;> split <;> simp

/-- C6: `GetHostsReport` with `InFieldFilter = ["processes"]` enriches
exactly the processes relation: the result hosts get `Processes` from the
(one) processes query and keep `Containers`, `ContainerImages` and `Pods`
untouched from the base decode, and the relation-query log contains only
`hostProcesses` entries — no containers/images/pods query is ever
issued. -/
theorem c6_infieldfilter_gates_enrichment (nodeIds : List String)
    (win : FetchWindow) (hosts : List Host) (procQ contQ imgQ podQ : RelQuery) :
    GetHostsReport ⟨["processes"], nodeIds, win⟩ (.ok hosts) procQ contQ imgQ podQ
      = (.ok (hosts.map (fun h =>
            match procQ [h.ID] with
            | .ok ps => { h with Processes := ps }
            | .error _ => h)),
         hosts.map (fun h => (RelTag.hostProcesses, [h.ID]))) := by
  have h1 : InSlice "processes" ["processes"] = true := by decide
  have h2 : InSlice "container_images" ["processes"] = false := by decide
  have h3 : InSlice "containers" ["processes"] = false := by decide
  have h4 : InSlice "pods" ["processes"] = false := by decide
  simp [GetHostsReport, h1, h2, h3, h4, enrichHost, flatMap_singleton_map]

/-- C9 (counterexample): the claim states that the number of relation
queries equals the number of enriched relations (four for hosts with an
empty filter) independently of the page size.  A two-host page issues
eight relation queries. -/
theorem c9_bulk_query_counterexample :
    ((GetHostsReport ⟨[], [], w0⟩ (.ok sampleHosts) okQ okQ okQ okQ).2).length = 8 ∧
    ((GetHostsReport ⟨[], [], w0⟩ (.ok sampleHosts) okQ okQ okQ okQ).2).length ≠ 4 := by
  decide

/-- C9 (amended): enrichment is issued per entity, not in bulk: with an
empty filter, `GetHostsReport` issues one query per (host, relation) pair,
each parameterized by the singleton id list `[h.ID]`, so the number of
relation queries is `4 * hosts.length` — proportional to the page size
rather than equal to the number of enriched relations. -/
theorem c9_per_entity_queries_amended (nodeIds : List String)
    (win : FetchWindow) (hosts : List Host) (procQ contQ imgQ podQ : RelQuery) :
    (GetHostsReport ⟨[], nodeIds, win⟩ (.ok hosts) procQ contQ imgQ podQ).2
      = hosts.flatMap (fun h =>
          [ (RelTag.hostProcesses, [h.ID]), (RelTag.hostContainers, [h.ID])
          , (RelTag.hostContainerImages, [h.ID]), (RelTag.hostPods, [h.ID]) ]) ∧
    ((GetHostsReport ⟨[], nodeIds, win⟩ (.ok hosts) procQ contQ imgQ podQ).2).length
      = 4 * hosts.length := by
  have hlog : (GetHostsReport ⟨[], nodeIds, win⟩ (.ok hosts) procQ contQ imgQ podQ).2
      = hosts.flatMap (fun h =>
          [ (RelTag.hostProcesses, [h.ID]), (RelTag.hostContainers, [h.ID])
          , (RelTag.hostContainerImages, [h.ID]), (RelTag.hostPods, [h.ID]) ]) := by
    simp [GetHostsReport, enrichHost_log_all]
  exact ⟨hlog, by rw [hlog]; exact flatMap_four_length hosts _ _ _ _⟩

/-- C4 (counterexample): the claim states that every report operation,
`GetRegistryAccountReport` included, still returns the report when one
relation's enrichment query fails.  With a one-registry page and a failing
images query, the call returns an error instead of a report. -/
theorem c4_registry_failure_counterexample :
    (GetRegistryAccountReport ⟨[], [], w0⟩ (.ok [sampleRegistry])
        (fun _ => .error ())).1 = .error () := rfl

/-- C4 (amended): enrichment-failure isolation holds for `GetHostsReport`,
`GetContainersReport`, `GetContainerImagesReport` and
`GetKubernetesClustersReport`: when the base query succeeded and one
relation's query fails on every entity while the others succeed, the
failing relation's field keeps its base value, every other enriched field
is populated, and the call returns the report successfully.
`GetRegistryAccountReport` is the exception: it propagates the first
enrichment error and returns no report (last conjunct). -/
theorem c4_enrichment_failure_isolated_amended :
    (∀ (nodeIds : List String) (win : FetchWindow) (hosts : List Host)
       (cf imf pf : List String → List PropMap),
      GetHostsReport ⟨[], nodeIds, win⟩ (.ok hosts)
          (fun _ => .error ())
          (fun ids => .ok (cf ids)) (fun ids => .ok (imf ids))
          (fun ids => .ok (pf ids))
        = (.ok (hosts.map (fun h =>
              { h with Containers := cf [h.ID], ContainerImages := imf [h.ID],
                       Pods := pf [h.ID] })),
           hosts.flatMap (fun h =>
              [ (RelTag.hostProcesses, [h.ID]), (RelTag.hostContainers, [h.ID])
              , (RelTag.hostContainerImages, [h.ID]), (RelTag.hostPods, [h.ID]) ]))) ∧
    (∀ (nodeIds : List String) (win : FetchWindow) (cs : List Container)
       (pf : List String → List PropMap),
      GetContainersReport ⟨[], nodeIds, win⟩ (.ok cs)
          (fun ids => .ok (pf ids)) (fun _ => .error ())
        = (.ok (cs.map (fun c => { c with Processes := pf [c.ID] })),
           cs.flatMap (fun c =>
              [ (RelTag.containerProcesses, [c.ID])
              , (RelTag.containerContainerImages, [c.ID]) ]))) ∧
    (∀ (nodeIds : List String) (win : FetchWindow) (is : List ContainerImage),
      GetContainerImagesReport ⟨[], nodeIds, win⟩ (.ok is) (fun _ => .error ())
        = (.ok is, is.flatMap (fun i => [(RelTag.imageContainers, [i.ID])]))) ∧
    (∀ (nodeIds : List String) (win : FetchWindow) (ks : List KubernetesCluster),
      GetKubernetesClustersReport ⟨[], nodeIds, win⟩ (.ok ks) (fun _ => .error ())
        = (.ok ks, ks.flatMap (fun k => [(RelTag.clusterHosts, [k.ID])]))) ∧
    (∀ (nodeIds : List String) (win : FetchWindow) (r : RegistryAccount)
       (rs : List RegistryAccount),
      GetRegistryAccountReport ⟨[], nodeIds, win⟩ (.ok (r :: rs)) (fun _ => .error ())
        = (.error (), [(RelTag.registryContainerImages, [r.ID])])) := by
  refine ⟨?_, ?_, ?_, ?_, ?_⟩
  · intro nodeIds win hosts cf imf pf
    simp [GetHostsReport, enrichHost]
  · intro nodeIds win cs pf
    simp [GetContainersReport, enrichContainer]
  · intro nodeIds win is
    simp [GetContainerImagesReport]
  · intro nodeIds win ks
    simp [GetKubernetesClustersReport]
  · intro nodeIds win r rs
    simp [GetRegistryAccountReport, registryLoop]

/-! ## Claim C3 -/

theorem joinComma_spliced (f : String) (l : List String) (hf : f ∈ l) :
    ∃ u v, (joinComma l).data = u ++ f.data ++ v := by
  induction l with
  | nil => cases hf
  | cons x rest ih =>
      rcases List.mem_cons.mp hf with rfl | hmem
      · cases rest with
        | nil => exact ⟨[], [], by simp [joinComma]⟩
        | cons y t =>
            exact ⟨[], ("," ++ joinComma (y :: t)).data, by
              simp [joinComma, String.data_append]⟩
      · cases rest with
        | nil => cases hmem
        | cons y t =>
            obtain ⟨u, v, hu⟩ := ih hmem
            exact ⟨(x ++ ",").data ++ u, v, by
              simp [joinComma, String.data_append, hu]⟩

theorem fieldFilterCypher_spliced (f : String) (fields : List String)
    (hf : f ∈ fields) :
    ∃ u v, (FieldFilterCypher "n" fields).data = u ++ ("n." ++ f).data ++ v := by
  have hne : fields.isEmpty = false := by
    cases fields with
    | nil => cases hf
    | cons x t => rfl
  rw [FieldFilterCypher, hne]
  simp only [Bool.false_eq_true, if_false]
  exact joinComma_spliced ("n." ++ f) (fields.map (fun x => "n" ++ "." ++ x))
    (List.mem_map.mpr ⟨f, hf, rfl⟩)

theorem genericQuery_spliced (label : String) (filter : LookupFilter)
    (f : String) (hf : f ∈ filter.InFieldFilter) :
    Spliced ("n." ++ f) (genericQueryString label filter) := by
  obtain ⟨u, v, hu⟩ := fieldFilterCypher_spliced f filter.InFieldFilter hf
  rw [genericQueryString]
  by_cases hn : filter.NodeIds.isEmpty
  · rw [if_pos hn]
    exact ⟨("\n\t\t\t\tMATCH (n:" ++ label
        ++ ")\n\t\t\t\tOPTIONAL MATCH (n) -[:IS]-> (e)\n\t\t\t\tRETURN ").data ++ u,
      v ++ ", e".data, by simp [String.data_append, hu]⟩
  · rw [if_neg hn]
    exact ⟨("\n\t\t\t\tMATCH (n:" ++ label
        ++ ")\n\t\t\t\tWHERE n.node_id IN $ids\n\t\t\t\tOPTIONAL MATCH (n) -[:IS]-> (e)\n\t\t\t\tRETURN ").data ++ u,
      v ++ ", e".data, by simp [String.data_append, hu]⟩

/-- C3 (counterexample): calling the generic lookup with the unknown field
name `"bogus_field"` does not produce a `ValidationError`: with a working
store the call succeeds, its trace shows the session, transaction and
query run (store access happened), and the unknown name sits verbatim in
the query text. -/
theorem c3_unknown_field_counterexample :
    (getGenericDirectNodeReport (okReadEnv []) "Host" ⟨["bogus_field"], [], w0⟩).1
      = .ok [] ∧
    (getGenericDirectNodeReport (okReadEnv []) "Host" ⟨["bogus_field"], [], w0⟩).2
      = [.openSession, .beginTx,
         .runQuery (genericQueryString "Host" ⟨["bogus_field"], [], w0⟩)] ∧
    Spliced "bogus_field" (genericQueryString "Host" ⟨["bogus_field"], [], w0⟩) := by
  refine ⟨rfl, rfl, ?_⟩
  exact ⟨"\n\t\t\t\tMATCH (n:Host)\n\t\t\t\tOPTIONAL MATCH (n) -[:IS]-> (e)\n\t\t\t\tRETURN n.".data,
    ", e".data, by decide⟩

/-- C3 (amended): no validation of `InFieldFilter` happens: every
requested field name — known to the schema or not — is spliced verbatim
into the query text as `n.<field>`, the call can never return a
`ValidationError` (no code path produces one), and with a working store
the call opens the session and transaction and runs the spliced query
(store access happens regardless of the field names). -/
theorem c3_no_validation_amended (label : String) (fields : List String)
    (nodeIds : List String) (win : FetchWindow) (f : String)
    (hf : f ∈ fields) :
    Spliced ("n." ++ f) (genericQueryString label ⟨fields, nodeIds, win⟩) ∧
    (∀ env : ReadEnv,
      (getGenericDirectNodeReport env label ⟨fields, nodeIds, win⟩).1
        ≠ .error .validationErr) ∧
    (∀ recs : List Rec,
      getGenericDirectNodeReport (okReadEnv recs) label ⟨fields, nodeIds, win⟩
        = (.ok (recs.filterMap (mapRecord ⟨fields, nodeIds, win⟩)),
           [.openSession, .beginTx,
            .runQuery (genericQueryString label ⟨fields, nodeIds, win⟩)])) := by
  refine ⟨genericQuery_spliced label ⟨fields, nodeIds, win⟩ f hf, ?_, fun _ => rfl⟩
  intro env
  rcases env with ⟨c, s, t, r⟩
  cases c <;> cases s <;> cases t <;> rcases r with e | recs <;>
    simp [getGenericDirectNodeReport]

/-- Witness for C3 (amended) at the unknown field `"bogus_field"`. -/
theorem c3_no_validation_amended_witness :
    ("bogus_field" ∈ ["bogus_field"]) ∧
    (Spliced ("n." ++ "bogus_field")
        (genericQueryString "Host" ⟨["bogus_field"], [], w0⟩) ∧
    (∀ env : ReadEnv,
      (getGenericDirectNodeReport env "Host" ⟨["bogus_field"], [], w0⟩).1
        ≠ .error .validationErr) ∧
    (∀ recs : List Rec,
      getGenericDirectNodeReport (okReadEnv recs) "Host" ⟨["bogus_field"], [], w0⟩
        = (.ok (recs.filterMap (mapRecord ⟨["bogus_field"], [], w0⟩)),
           [.openSession, .beginTx,
            .runQuery (genericQueryString "Host" ⟨["bogus_field"], [], w0⟩)]))) :=
  ⟨by simp,
   c3_no_validation_amended "Host" ["bogus_field"] [] w0 "bogus_field" (by simp)⟩

end ThreatMapper
